import Mathlib

/-
  Verification development for the renpy-translate tool (src/renpy-translate.py).

  Python strings are modelled as lists of characters (`Str`).  Each function
  below is a direct shallow embedding of the corresponding Python definition:
  the mutable global cache becomes explicit state passing, the Google backend
  becomes a function parameter `backend : Str -> Str -> Str`, and operations
  that can raise (IndexError / AttributeError) return `Option`.
-/

abbrev Str := List Char

/- Python str.strip() whitespace set (ASCII scope). -/
def isPySpace (c : Char) : Bool :=
  c = ' ' || c = '\t' || c = '\n' || c = '\r' || c = '\x0b' || c = '\x0c'

/- Python str.strip(): remove leading and trailing whitespace. -/
def pyStrip (s : Str) : Str :=
  ((s.dropWhile isPySpace).reverse.dropWhile isPySpace).reverse

/- Python regex \w, ASCII scope (identifier characters). -/
def wordChar (c : Char) : Bool :=
  c.isAlphanum || c = '_'

/-
  The translation cache (global TRANSLATION_CACHE): a JSON object mapping a
  source string to an object mapping a language code to a translated string.
  Modelled as an association list with most-recent binding first, so that
  `List.lookup` realizes Python dict reads after `d[k] = v` assignments.
-/
abbrev Cache := List (Str × List (Str × Str))

/-
  TranslationString.pull_from_cache (lines 83-88).  Python truthiness is
  embedded literally: a missing key gives None, an *empty inner dict* is
  falsy, and an *empty cached string* is falsy, all yielding None.
-/
def pull_from_cache (cache : Cache) (content lang : Str) : Option Str :=
  match List.lookup content cache with
  | none => none
  | some avail =>
    if avail.isEmpty then none
    else
      match List.lookup lang avail with
      | none => none
      | some t => if t.isEmpty then none else some t

/- PPC (line 32): 20$ per 1M characters. -/
def PPC : ℚ := 20 / 1000000

/- TranslationString.estimate_price (lines 90-93). -/
def estimate_price (cache : Cache) (content lang : Str) : ℚ × Nat :=
  match pull_from_cache cache content lang with
  | some _ => (0, 1)
  | none => ((content.length : ℚ) * PPC, 0)

/- Result of TranslationString.translate: the translation stored on the
   object, the cache afterwards, and the number of live backend calls. -/
structure TSRes where
  translation : Str
  cache : Cache
  calls : Nat
  deriving DecidableEq, Repr

/-
  TranslationString.translate (lines 67-81).  A cache miss performs one
  backend call and rebinds the content key to a fresh one-language dict
  (`TRANSLATION_CACHE[self.content] = {to_language: self.translation}`),
  realized here by shadowing the old binding.
-/
def ts_translate (backend : Str → Str → Str) (cache : Cache)
    (content lang : Str) : TSRes :=
  if (pyStrip content).isEmpty then ⟨content, cache, 0⟩
  else
    match pull_from_cache cache content lang with
    | some t => ⟨t, cache, 0⟩
    | none =>
      let t := backend content lang
      ⟨t, (content, [(lang, t)]) :: cache, 1⟩

/-
  Python str.split(sep) for a non-empty separator, scanning left to right and
  consuming non-overlapping occurrences.  Written with a fuel argument (the
  initial string length) so that it is structurally recursive and evaluates
  inside the kernel; `splitAux_irrel` shows the fuel is irrelevant once it is
  at least the string length.
-/
def splitAux (sep : Str) : Nat → Str → List Str
  | _, [] => [[]]
  | 0, c :: rest => [c :: rest]
  | fuel + 1, c :: rest =>
    if !sep.isEmpty && sep.isPrefixOf (c :: rest) then
      [] :: splitAux sep fuel ((c :: rest).drop sep.length)
    else
      match splitAux sep fuel rest with
      | [] => [[c]]
      | p :: ps => (c :: p) :: ps

def pySplit (sep s : Str) : List Str := splitAux sep s.length s

/- Python sep.join(parts). -/
def joinWith (sep : Str) : List Str → Str
  | [] => []
  | [p] => p
  | p :: q :: ps => p ++ sep ++ joinWith sep (q :: ps)

/- Character class [A-z0-9:/?.=&#_-] of the hyperlink-attribute part of
   TAG_PATTERN (line 31).  [A-z] spans ASCII 0x41-0x7a. -/
def tagClassChar (c : Char) : Bool :=
  ('A' ≤ c && c ≤ 'z') || c.isDigit ||
    c = ':' || c = '/' || c = '?' || c = '.' || c = '=' || c = '&' ||
    c = '#' || c = '-'

/- Inner part of a tag occurrence, after the opening brace and optional
   slash: i}, q}, b}, size}, a}, or a=<classchar>+}.  Returns the suffix
   after the closing brace on a match. -/
def matchTagBody : Str → Option Str
  | 'i' :: '}' :: t => some t
  | 'q' :: '}' :: t => some t
  | 'b' :: '}' :: t => some t
  | 's' :: 'i' :: 'z' :: 'e' :: '}' :: t => some t
  | 'a' :: '}' :: t => some t
  | 'a' :: '=' :: r =>
    let run := r.takeWhile tagClassChar
    if run.isEmpty then none
    else
      match r.drop run.length with
      | '}' :: t => some t
      | _ => none
  | _ => none

/- A TAG_PATTERN occurrence anchored at the start of the string:
   brace, optional slash, tag body.  Returns the suffix after the tag. -/
def matchTag : Str → Option Str
  | '{' :: '/' :: r => matchTagBody r
  | '{' :: r => matchTagBody r
  | _ => none

/- re.sub(TAG_PATTERN, "", s): delete every non-overlapping occurrence,
   scanning left to right.  The fuel is the string length, which suffices
   because each step consumes at least one character. -/
def stripTagsAux : Nat → Str → Str
  | _, [] => []
  | 0, s => s
  | fuel + 1, c :: rest =>
    match matchTag (c :: rest) with
    | some t => stripTagsAux fuel t
    | none => c :: stripTagsAux fuel rest

def stripTags (s : Str) : Str := stripTagsAux s.length s

/- The literal two-character escape sequence \n used as the split/join
   delimiter (backslash followed by the letter n, not a newline byte). -/
def DELIM : Str := ['\\', 'n']

/- TranslationItem.sanitize (lines 107-110): strip tags, then split on the
   literal sequence \n; each piece becomes one TranslationString.  Only the
   content of each TranslationString matters here, so the unit list is the
   list of piece contents. -/
def sanitize (original_content : Str) : List Str :=
  pySplit DELIM (stripTags original_content)

/- TranslationItem.get_translated_content (lines 116-117). -/
def get_translated_content (translations : List Str) : Str :=
  joinWith DELIM translations

/- Result of translating a list of TranslationStrings in order:
   the translations in order, the final cache, the total backend calls. -/
structure TransRes where
  translations : List Str
  cache : Cache
  calls : Nat
  deriving DecidableEq, Repr

/- TranslationItem.translate (lines 112-114): translate every unit in
   order, threading the shared cache. -/
def strings_translate (backend : Str → Str → Str) (lang : Str) :
    Cache → List Str → TransRes
  | c, [] => ⟨[], c, 0⟩
  | c, s :: rest =>
    let r := ts_translate backend c s lang
    let rr := strings_translate backend lang r.cache rest
    ⟨r.translation :: rr.translations, rr.cache, r.calls + rr.calls⟩

/- TranslationItem.estimate_price (lines 128-130): sum of unit estimates. -/
def strings_estimate (cache : Cache) (lang : Str) : List Str → ℚ × Nat
  | [] => (0, 0)
  | s :: rest =>
    let e := estimate_price cache s lang
    let er := strings_estimate cache lang rest
    (e.1 + er.1, e.2 + er.2)

/- TranslationItem (lines 99-136): line bookkeeping plus original content;
   the unit list is derived from the content by sanitize (the property
   setter re-runs sanitize whenever the content is assigned). -/
structure TItem where
  source_line : Nat
  target_line : Nat
  original_content : Str
  deriving DecidableEq, Repr

def unitsOfItem (it : TItem) : List Str := sanitize it.original_content

/- TranslationBlock (lines 139-161). -/
structure TBlock where
  block_line : Nat
  items : List TItem
  deriving DecidableEq, Repr

/- TranslationFile (lines 164-185): the filename plays no role in the
   verified properties, so only the block list is kept. -/
structure TFile where
  blocks : List TBlock
  deriving DecidableEq, Repr

/- TranslationBlock.translate (lines 149-151). -/
def items_translate (backend : Str → Str → Str) (lang : Str) :
    Cache → List TItem → Cache × Nat
  | c, [] => (c, 0)
  | c, it :: rest =>
    let r := strings_translate backend lang c (unitsOfItem it)
    let rr := items_translate backend lang r.cache rest
    (rr.1, r.calls + rr.2)

/- TranslationFile.translate (lines 173-175). -/
def blocks_translate (backend : Str → Str → Str) (lang : Str) :
    Cache → List TBlock → Cache × Nat
  | c, [] => (c, 0)
  | c, b :: rest =>
    let r := items_translate backend lang c b.items
    let rr := blocks_translate backend lang r.1 rest
    (rr.1, r.2 + rr.2)

def file_translate (backend : Str → Str → Str) (lang : Str) (cache : Cache)
    (f : TFile) : Cache × Nat :=
  blocks_translate backend lang cache f.blocks

/- TranslationBlock.estimate_price (lines 153-155). -/
def items_estimate (cache : Cache) (lang : Str) : List TItem → ℚ × Nat
  | [] => (0, 0)
  | it :: rest =>
    let e := strings_estimate cache lang (unitsOfItem it)
    let er := items_estimate cache lang rest
    (e.1 + er.1, e.2 + er.2)

/- TranslationFile.estimate_price (lines 177-179). -/
def blocks_estimate (cache : Cache) (lang : Str) : List TBlock → ℚ × Nat
  | [] => (0, 0)
  | b :: rest =>
    let e := items_estimate cache lang b.items
    let er := blocks_estimate cache lang rest
    (e.1 + er.1, e.2 + er.2)

def file_estimate (cache : Cache) (lang : Str) (f : TFile) : ℚ × Nat :=
  blocks_estimate cache lang f.blocks

/- Total number of TranslationStrings in a file tree. -/
def unitCount (f : TFile) : Nat :=
  (f.blocks.map (fun b => (b.items.map (fun it => (unitsOfItem it).length)).sum)).sum

/- Character class [A-z0-9_] of the block-header regex (line 234). -/
def headerClassChar (c : Char) : Bool :=
  ('A' ≤ c && c ≤ 'z') || c.isDigit

/- re.match(r"translate ([A-z0-9_]+) ([A-z0-9_]+)", line): a prefix match
   on the raw line.  Both character classes exclude the space, so the
   greedy scan needs no backtracking. -/
def matchBlockHeader (line : Str) : Bool :=
  if "translate ".data.isPrefixOf line then
    let r := line.drop "translate ".data.length
    let g1 := r.takeWhile headerClassChar
    if g1.isEmpty then false
    else
      match r.drop g1.length with
      | ' ' :: r2 => !(r2.takeWhile headerClassChar).isEmpty
      | _ => false
  else false

/- The group-3 capture of (.*)" : everything up to the last double quote of
   the scope reachable by '.', which stops at a newline. -/
def contentBeforeLastQuote (tail : Str) : Option Str :=
  let scope := tail.takeWhile (fun c => c != '\n')
  if scope.contains '\"' then
    some ((scope.reverse.dropWhile (fun c => c != '\"')).drop 1).reverse
  else none

/-
  re.match(r'(\s*)(\w+)?\s*"(.*)"', s) (lines 242 and 254): optional
  leading whitespace, optional identifier token, a double-quoted string.
  The classes \s, \w and the literal quote are pairwise disjoint, so the
  backtracking regex is equivalent to this greedy scan; a missing closing
  quote fails the whole match.
-/
def matchQuoted (s : Str) : Option (Str × Option Str × Str) :=
  let g1 := s.takeWhile isPySpace
  let r1 := s.dropWhile isPySpace
  let w := r1.takeWhile wordChar
  let r2 := (r1.dropWhile wordChar).dropWhile isPySpace
  match r2 with
  | '\"' :: tail =>
    (contentBeforeLastQuote tail).map
      (fun content => (g1, if w.isEmpty then none else some w, content))
  | _ => none

/-
  Parse-loop state (main, lines 231-264).  Python TranslationItem objects
  are shared by reference: the variable translation_item can alias an item
  already appended to a block, and the old/new branch mutates that same
  object in place.  The model therefore keeps an object heap: `heap` is
  the store of every TranslationItem ever created (its index is the object
  identity), blocks hold item ids, and `titem` is the id bound to the
  translation_item variable.  Ids are only created as valid indices and
  the heap only grows, so the getD/set defaults below are never hit on a
  reachable state.
-/
structure PBlock where
  block_line : Nat
  item_ids : List Nat
  deriving DecidableEq, Repr

structure PState where
  block : Option Nat
  tblock : Option PBlock
  titem : Option Nat
  fileBlocks : List PBlock
  heap : List TItem
  deriving DecidableEq, Repr

/- Python list indexing text_lines[i-1]: wraps to the last line when
   i = 0. -/
def prevLine (lines : List Str) (i : Nat) : Str :=
  if i = 0 then lines.getLast?.getD [] else lines.getD (i - 1) []

/- `if translation_block: file.add(translation_block)`: the finished blocks
   plus the open one, if any. -/
def flushBlocks (st : PState) : List PBlock :=
  st.fileBlocks ++ (match st.tblock with
    | some b => [b]
    | none => [])

/- The TranslationItem built in the commented-original branch (lines
   255-262): target line i + 1 when the current line starts with
   nvl clear, else i. -/
def nvlItem (i : Nat) (line content : Str) : TItem :=
  if "nvl clear".data.isPrefixOf (pyStrip line) then ⟨i, i + 1, content⟩
  else ⟨i, i, content⟩

/-
  One iteration of the parse loop at index i (lines 233-264).  The four
  `if ... continue` branches chain like an else-if cascade.  A failed
  regex match where a group is read, or a method call on None, raises in
  Python; both are modelled as `none`.  Branch 2 allocates a fresh object
  and rebinds the variable; branch 3 mutates the object the variable
  points to IN PLACE (translation_item.target_line = i, possibly on an
  object already inside a block) and appends its id again; branch 4
  allocates, appends and binds the fresh object.
-/
def pstep (lines : List Str) (st : PState) (i : Nat) : Option PState :=
  let line := lines.getD i []
  let prev := prevLine lines i
  if (st.block != some i) && matchBlockHeader line then
    some { st with
      block := some i,
      fileBlocks := flushBlocks st,
      tblock := some ⟨i, []⟩ }
  else if "#".data.isPrefixOf (pyStrip prev)
      && "old".data.isPrefixOf (pyStrip line) then
    match matchQuoted (pyStrip line) with
    | some (_, _, content) =>
      some { st with
        titem := some st.heap.length,
        heap := st.heap ++ [⟨i, 0, content⟩] }
    | none => none
  else if "old".data.isPrefixOf (pyStrip prev)
      && "new".data.isPrefixOf (pyStrip line) then
    match st.titem, st.tblock with
    | some tid, some b =>
      some { st with
        heap := st.heap.set tid
          { st.heap.getD tid ⟨0, 0, []⟩ with target_line := i },
        tblock := some ⟨b.block_line, b.item_ids ++ [tid]⟩ }
    | _, _ => none
  else if "#".data.isPrefixOf (pyStrip prev)
      && !("# nvl clear".data.isPrefixOf (pyStrip prev))
      && !(pyStrip line).isEmpty then
    match matchQuoted ((pyStrip prev).drop 2) with
    | some (_, _, content) =>
      match st.tblock with
      | some b =>
        some { st with
          titem := some st.heap.length,
          heap := st.heap ++ [nvlItem i line content],
          tblock := some ⟨b.block_line, b.item_ids ++ [st.heap.length]⟩ }
      | none => none
    | none => none
  else
    some st

/- Reading a block through the heap: the TBlock the later passes of the
   program observe once parsing is finished. -/
def resolveBlock (heap : List TItem) (pb : PBlock) : TBlock :=
  ⟨pb.block_line, pb.item_ids.map (fun k => heap.getD k ⟨0, 0, []⟩)⟩

/- The whole parse loop over one file plus the final flush of the still
   open block (lines 231-267), every item read through the heap. -/
def parseFile (lines : List Str) : Option TFile :=
  match (List.range lines.length).foldlM (pstep lines)
      ⟨none, none, none, [], []⟩ with
  | none => none
  | some st => some ⟨(flushBlocks st).map (resolveBlock st.heap)⟩

/-
  The writeback regex (line 306).  The source text r"(\s*)(\w+)?\s*("")"
  is two adjacent Python string literals, so the compiled pattern is
  (\s*)(\w+)?\s*() with an EMPTY third group: it matches any line.
-/
def rewriteMatch (line : Str) : Str × Option Str :=
  let g1 := line.takeWhile isPySpace
  let r1 := line.dropWhile isPySpace
  let w := r1.takeWhile wordChar
  (g1, if w.isEmpty then none else some w)

/- Python '{}'.format(None) prints the literal text None. -/
def pyFormatOptStr : Option Str → Str
  | none => "None".data
  | some w => w

/- The replacement line built at line 307: '{}{} "{}"\n'.format(g1, g2, tr). -/
def rewriteLine (line translated : Str) : Str :=
  let m := rewriteMatch line
  m.1 ++ pyFormatOptStr m.2 ++ (' ' :: '\"' :: (translated ++ ['\"', '\n']))

/- text_lines[item.target_line] = ... : an out-of-range index raises
   IndexError, modelled as none. -/
def applyItem (transOf : TItem → Str) (lines : List Str) (it : TItem) :
    Option (List Str) :=
  if it.target_line < lines.length then
    some (lines.set it.target_line
      (rewriteLine (lines.getD it.target_line []) (transOf it)))
  else none

/- The writeback loop over every item of every block (lines 304-309);
   `transOf` yields item.get_translated_content(). -/
def writeback (transOf : TItem → Str) (lines : List Str)
    (items : List TItem) : Option (List Str) :=
  items.foldlM (applyItem transOf) lines

def writebackFile (transOf : TItem → Str) (lines : List Str) (f : TFile) :
    Option (List Str) :=
  writeback transOf lines (f.blocks.map TBlock.items).flatten

/- Effects that later parts of the program would perform; module
   initialization itself performs none of them. -/
inductive Effect where
  | cacheLoad
  | fileParse
  | apiCall
  | fileWrite
  deriving DecidableEq, Repr

/- Top-level statements of the module, in source order.  Imports and
   definitions only bind a name; running the __main__ guard would perform
   the whole pipeline of effects. -/
inductive PyTopStmt where
  | importMod (name : Str)
  | callStmt (name : Str)
  | assignName (name : Str)
  | sysExit (code : Nat)
  | defName (name : Str)
  | mainGuard
  deriving DecidableEq, Repr

structure ModuleEnv where
  names : List Str
  effects : List Effect
  deriving DecidableEq, Repr

def runStmt (env : ModuleEnv) : PyTopStmt → Except (Nat × ModuleEnv) ModuleEnv
  | .importMod n => .ok { env with names := env.names ++ [n] }
  | .callStmt _ => .ok env
  | .assignName n => .ok { env with names := env.names ++ [n] }
  | .sysExit c => .error (c, env)
  | .defName n => .ok { env with names := env.names ++ [n] }
  | .mainGuard => .ok { env with effects := env.effects ++
      [.cacheLoad, .fileParse, .apiCall, .fileWrite] }

/- The module body of src/renpy-translate.py in source order: the import
   block (lines 4-25), warnings.filterwarnings (line 5), the cache-file
   constant (line 28), the unconditional sys.exit(1) (line 30), then the
   statements that would follow it (lines 31-354). -/
def moduleBody : List PyTopStmt :=
  [ .importMod "warnings".data,
    .callStmt "filterwarnings".data,
    .importMod "os".data,
    .importMod "re".data,
    .importMod "sys".data,
    .importMod "json".data,
    .importMod "asyncio".data,
    .importMod "argparse".data,
    .importMod "requests".data,
    .importMod "glob".data,
    .importMod "rmtree".data,
    .importMod "defaultdict".data,
    .importMod "signal".data,
    .importMod "tqdm".data,
    .importMod "colorama".data,
    .importMod "translate".data,
    .assignName "TRANSLATION_CACHE_FILE".data,
    .sysExit 1,
    .assignName "TAG_PATTERN".data,
    .assignName "PPC".data,
    .defName "confirm".data,
    .defName "check".data,
    .defName "Tag".data,
    .defName "TranslationString".data,
    .defName "TranslationItem".data,
    .defName "TranslationBlock".data,
    .defName "TranslationFile".data,
    .defName "parse_tags".data,
    .defName "main".data,
    .mainGuard ]

/- Executing the module top to bottom, stopping at the first sys.exit. -/
def runModule : Except (Nat × ModuleEnv) ModuleEnv :=
  moduleBody.foldlM runStmt ⟨[], []⟩

/- The old/new branch condition at step j (the pair that triggers the
   in-place retargeting of the shared pending item). -/
def b3c (lines : List Str) (j : Nat) : Bool :=
  "old".data.isPrefixOf (pyStrip (prevLine lines j)) &&
  "new".data.isPrefixOf (pyStrip (lines.getD j []))

/- Proof-side predicate: object id k is referenced by a finished or by the
   open block. -/
def idInBlocks (k : Nat) (st : PState) : Prop :=
  (∃ pb ∈ st.fileBlocks, k ∈ pb.item_ids) ∨
  (∃ pb, st.tblock = some pb ∧ k ∈ pb.item_ids)

/- Proof-side predicate: a block references a live object recording source
   line i with target line i + 1. -/
def protAt (i k : Nat) (st : PState) : Prop :=
  k < st.heap.length ∧ idInBlocks k st ∧
  (st.heap.getD k ⟨0, 0, []⟩).source_line = i ∧
  (st.heap.getD k ⟨0, 0, []⟩).target_line = i + 1

/- Parse-state invariant before executing step j: such an object exists,
   and if the translation_item variable still aliases it, the next step is
   not an old/new pair (which would retarget it in place). -/
def invAt (lines : List Str) (i j : Nat) (st : PState) : Prop :=
  ∃ k, protAt i k st ∧ (st.titem = some k → b3c lines j = false)

/- ===== Theorems ===== -/

theorem splitAux_irrel (sep : Str) (hsep : sep ≠ []) :
    ∀ (f1 : Nat) (s : Str) (f2 : Nat), s.length ≤ f1 → s.length ≤ f2 →
      splitAux sep f1 s = splitAux sep f2 s := by
  intro f1
  induction f1 with
  | zero =>
    intro s f2 h1 _
    have : s = [] := List.eq_nil_of_length_eq_zero (Nat.le_zero.mp h1)
    subst this
    cases f2 <;> rfl
  | succ f1 ih =>
    intro s f2 h1 h2
    cases s with
    | nil => cases f2 <;> rfl
    | cons c rest =>
      cases f2 with
      | zero => exact absurd h2 (by simp)
      | succ f2 =>
        simp only [List.length_cons] at h1 h2
        simp only [splitAux]
        by_cases hpre : (!sep.isEmpty && sep.isPrefixOf (c :: rest)) = true
        · rw [if_pos hpre, if_pos hpre]
          have hs1 : 1 ≤ sep.length := by
            cases sep with
            | nil => exact absurd rfl hsep
            | cons x xs => simp
          have hd : ((c :: rest).drop sep.length).length
              = rest.length + 1 - sep.length := by
            rw [List.length_drop]; simp
          have hlen : ((c :: rest).drop sep.length).length ≤ f1 := by
            rw [hd]; omega
          have hlen2 : ((c :: rest).drop sep.length).length ≤ f2 := by
            rw [hd]; omega
          rw [ih _ f2 hlen hlen2]
        · rw [if_neg hpre, if_neg hpre]
          have hr1 : rest.length ≤ f1 := by omega
          have hr2 : rest.length ≤ f2 := by omega
          rw [ih rest f2 hr1 hr2]

/- Recursion equation for pySplit on a cons cell. -/
theorem pySplit_cons (sep : Str) (hsep : sep ≠ []) (c : Char) (rest : Str) :
    pySplit sep (c :: rest) =
      if !sep.isEmpty && sep.isPrefixOf (c :: rest) then
        [] :: pySplit sep ((c :: rest).drop sep.length)
      else
        match pySplit sep rest with
        | [] => [[c]]
        | p :: ps => (c :: p) :: ps := by
  show splitAux sep (rest.length + 1) (c :: rest) = _
  simp only [splitAux]
  by_cases hpre : (!sep.isEmpty && sep.isPrefixOf (c :: rest)) = true
  · rw [if_pos hpre, if_pos hpre]
    have hs1 : 1 ≤ sep.length := by
      cases sep with
      | nil => exact absurd rfl hsep
      | cons x xs => simp
    have hlen : ((c :: rest).drop sep.length).length ≤ rest.length := by
      have hd : ((c :: rest).drop sep.length).length
          = rest.length + 1 - sep.length := by
        rw [List.length_drop]; simp
      rw [hd]; omega
    rw [splitAux_irrel sep hsep rest.length ((c :: rest).drop sep.length)
      ((c :: rest).drop sep.length).length hlen (le_refl _)]
    rfl
  · rw [if_neg hpre, if_neg hpre]
    rfl

theorem pySplit_ne_nil (sep s : Str) : pySplit sep s ≠ [] := by
  show splitAux sep s.length s ≠ []
  generalize s.length = f
  induction f generalizing s with
  | zero => cases s <;> simp [splitAux]
  | succ f ih =>
    cases s with
    | nil => simp [splitAux]
    | cons c rest =>
      simp only [splitAux]
      split
      · simp
      · cases h : splitAux sep f rest <;> simp

/- When the two characters of the separator differ, the separator cannot be
   a prefix of p ++ sep ++ t unless it is already an infix of p or p = []. -/
theorem sep2_not_prefix (x y : Char) (hxy : x ≠ y) (c : Char) (p t : Str)
    (hinf : ¬ ([x, y] <:+: (c :: p))) :
    [x, y].isPrefixOf (c :: (p ++ [x, y] ++ t)) = false := by
  by_contra hb
  simp only [Bool.not_eq_false] at hb
  have hpre : [x, y] <+: c :: (p ++ [x, y] ++ t) :=
    List.isPrefixOf_iff_prefix.mp hb
  rcases List.cons_prefix_cons.mp hpre with ⟨hx, h2⟩
  cases p with
  | nil =>
    have hy : y = x := by simpa using h2
    exact hxy hy.symm
  | cons d p2 =>
    have hy : y = d := by simpa using h2
    exact hinf (List.infix_cons_iff.mpr (Or.inl ⟨p2, by simp [hx, hy]⟩))

theorem pySplit_single (x y : Char) (p : Str) (hinf : ¬ ([x, y] <:+: p)) :
    pySplit [x, y] p = [p] := by
  induction p with
  | nil => rfl
  | cons c p2 ih =>
    rw [pySplit_cons [x, y] (by simp) c p2]
    have hnp : [x, y].isPrefixOf (c :: p2) = false := by
      by_contra h
      simp only [Bool.not_eq_false] at h
      exact hinf (List.infix_cons_iff.mpr
        (Or.inl (List.isPrefixOf_iff_prefix.mp h)))
    have hinf2 : ¬ ([x, y] <:+: p2) :=
      fun h => hinf (List.infix_cons_iff.mpr (Or.inr h))
    rw [if_neg (by simp only [hnp, Bool.and_false]; simp)]
    rw [ih hinf2]

theorem pySplit_glue (x y : Char) (hxy : x ≠ y) (t : Str) (p : Str)
    (hinf : ¬ ([x, y] <:+: p)) :
    pySplit [x, y] (p ++ [x, y] ++ t) = p :: pySplit [x, y] t := by
  induction p with
  | nil =>
    have hrw : ([] : Str) ++ [x, y] ++ t = x :: (y :: t) := by simp
    rw [hrw, pySplit_cons [x, y] (by simp) x (y :: t)]
    have hpre : [x, y].isPrefixOf (x :: y :: t) = true := by
      simp [List.isPrefixOf]
    rw [if_pos (by simp [hpre])]
    rfl
  | cons c p2 ih =>
    have hinf2 : ¬ ([x, y] <:+: p2) :=
      fun h => hinf (List.infix_cons_iff.mpr (Or.inr h))
    have hrw : (c :: p2) ++ [x, y] ++ t = c :: (p2 ++ [x, y] ++ t) := by simp
    rw [hrw, pySplit_cons [x, y] (by simp) c (p2 ++ [x, y] ++ t)]
    have hnp := sep2_not_prefix x y hxy c p2 t hinf
    rw [if_neg (by simp only [hnp, Bool.and_false]; simp)]
    rw [ih hinf2]

/- Round trip: joining parts that never contain the two-character separator
   and re-splitting recovers exactly the original parts. -/
theorem pySplit_joinWith (x y : Char) (hxy : x ≠ y) (parts : List Str)
    (hne : parts ≠ []) (hinf : ∀ p ∈ parts, ¬ ([x, y] <:+: p)) :
    pySplit [x, y] (joinWith [x, y] parts) = parts := by
  induction parts with
  | nil => exact absurd rfl hne
  | cons p ps ih =>
    cases ps with
    | nil =>
      show pySplit [x, y] (joinWith [x, y] [p]) = [p]
      exact pySplit_single x y p (hinf p (by simp))
    | cons q ps2 =>
      show pySplit [x, y] (p ++ [x, y] ++ joinWith [x, y] (q :: ps2)) = _
      rw [pySplit_glue x y hxy (joinWith [x, y] (q :: ps2)) p
        (hinf p (by simp))]
      rw [ih (by simp) (fun r hr => hinf r (List.mem_cons_of_mem p hr))]

/-- C4: a TranslationUnit whose content is empty or whitespace-only
translates to itself verbatim, with zero backend calls and an unchanged
cache. -/
theorem translate_whitespace (backend : Str → Str → Str) (cache : Cache)
    (content lang : Str) (h : (pyStrip content).isEmpty = true) :
    ts_translate backend cache content lang = ⟨content, cache, 0⟩ := by
  simp [ts_translate, h]

/-- Witness for C4 at content "  " (two spaces). -/
theorem translate_whitespace_witness :
    ts_translate (fun _ _ => []) [] "  ".data "fr".data = ⟨"  ".data, [], 0⟩ :=
  translate_whitespace (fun _ _ => []) [] "  ".data "fr".data (by decide)

theorem writeback_frame_items (transOf : TItem → Str) (items : List TItem) :
    ∀ (lines out : List Str) (j : Nat),
      writeback transOf lines items = some out →
      (∀ it ∈ items, it.target_line ≠ j) →
      out[j]? = lines[j]? := by
  induction items with
  | nil =>
    intro lines out j hw _
    simp only [writeback, List.foldlM_nil, Option.pure_def,
      Option.some.injEq] at hw
    rw [hw]
  | cons it rest ih =>
    intro lines out j hw hj
    simp only [writeback, List.foldlM_cons] at hw
    cases happ : applyItem transOf lines it with
    | none => rw [happ] at hw; exact absurd hw (by simp)
    | some lines1 =>
      rw [happ] at hw
      simp only [Option.bind_eq_bind, Option.some_bind] at hw
      have h1 : out[j]? = lines1[j]? := ih lines1 out j hw
        (fun x hx => hj x (List.mem_cons_of_mem it hx))
      have hne : it.target_line ≠ j := hj it (List.mem_cons_self it rest)
      simp only [applyItem] at happ
      by_cases hlt : it.target_line < lines.length
      · rw [if_pos hlt] at happ
        have hset := Option.some.inj happ
        rw [h1, ← hset, List.getElem?_set_ne hne]
      · rw [if_neg hlt] at happ
        exact absurd happ (by simp)

/-- C10: rewriting leaves every line whose index is not a recorded target
line number of some dialogue line byte-for-byte identical to the source
file (the writeback loop only ever assigns to the indices
item.target_line). -/
theorem writeback_file_frame (transOf : TItem → Str) (lines out : List Str)
    (f : TFile) (j : Nat)
    (hw : writebackFile transOf lines f = some out)
    (hj : ∀ b ∈ f.blocks, ∀ it ∈ b.items, it.target_line ≠ j) :
    out[j]? = lines[j]? := by
  refine writeback_frame_items transOf (f.blocks.map TBlock.items).flatten
    lines out j hw ?_
  intro it hit
  rcases List.mem_flatten.mp hit with ⟨l, hl, hitl⟩
  rcases List.mem_map.mp hl with ⟨b, hb, rfl⟩
  exact hj b hb it hitl

/-- Witness for C10: a two-line file whose single dialogue line targets
line 1; line 0 is untouched. -/
theorem writeback_file_frame_witness :
    writebackFile (fun _ => "X".data)
      ["label start:".data, "    new \"\"".data]
      ⟨[⟨0, [⟨0, 1, "Hi".data⟩]⟩]⟩
      = some ["label start:".data, "    new \"X\"\n".data] ∧
    (["label start:".data, "    new \"X\"\n".data] : List Str)[0]?
      = (["label start:".data, "    new \"\"".data] : List Str)[0]? := by
  refine ⟨by decide, ?_⟩
  exact writeback_file_frame (fun _ => "X".data)
    ["label start:".data, "    new \"\"".data]
    ["label start:".data, "    new \"X\"\n".data]
    ⟨[⟨0, [⟨0, 1, "Hi".data⟩]⟩]⟩ 0 (by decide) (by decide)

theorem strings_translate_length (backend : Str → Str → Str) (lang : Str)
    (us : List Str) : ∀ c : Cache,
    (strings_translate backend lang c us).translations.length = us.length := by
  induction us with
  | nil => intro c; rfl
  | cons u rest ih =>
    intro c
    simp only [strings_translate, List.length_cons]
    rw [ih]

/-- C7 amended: provided no translated unit contains the literal
two-character delimiter \n (in particular the backend never emits it),
the number of segments obtained by re-splitting getTranslatedContent() on
the delimiter equals the number of TranslationUnits produced by setting the
original content: re-splitting recovers exactly the translated unit list,
so the segment count and join delimiter are stable. -/
theorem segment_count_stable (backend : Str → Str → Str) (lang : Str)
    (cache : Cache) (content : Str)
    (h : ∀ tr ∈ (strings_translate backend lang cache
        (sanitize content)).translations, ¬ (DELIM <:+: tr)) :
    pySplit DELIM (get_translated_content
      (strings_translate backend lang cache (sanitize content)).translations)
      = (strings_translate backend lang cache (sanitize content)).translations
    ∧ (pySplit DELIM (get_translated_content
        (strings_translate backend lang cache
          (sanitize content)).translations)).length
      = (sanitize content).length := by
  have hlen := strings_translate_length backend lang (sanitize content) cache
  have hne : (strings_translate backend lang cache
      (sanitize content)).translations ≠ [] := by
    intro hnil
    have := pySplit_ne_nil DELIM (stripTags content)
    have hzero : (sanitize content).length = 0 := by
      rw [← hlen, hnil]; rfl
    exact this (List.eq_nil_of_length_eq_zero hzero)
  have hxy : ('\\' : Char) ≠ 'n' := by decide
  have hrt : pySplit DELIM (get_translated_content
      (strings_translate backend lang cache (sanitize content)).translations)
      = (strings_translate backend lang cache (sanitize content)).translations :=
    pySplit_joinWith '\\' 'n' hxy
      (strings_translate backend lang cache (sanitize content)).translations
      hne h
  refine ⟨hrt, ?_⟩
  rw [hrt, hlen]

/-- Witness for C7 amended: content Hi\nYo (two units), identity backend;
the translations contain no delimiter and the re-split count is 2. -/
theorem segment_count_stable_witness :
    pySplit DELIM (get_translated_content
      (strings_translate (fun s _ => s) "fr".data []
        (sanitize "Hi\\nYo".data)).translations)
      = (strings_translate (fun s _ => s) "fr".data []
        (sanitize "Hi\\nYo".data)).translations
    ∧ (pySplit DELIM (get_translated_content
        (strings_translate (fun s _ => s) "fr".data []
          (sanitize "Hi\\nYo".data)).translations)).length
      = (sanitize "Hi\\nYo".data).length :=
  segment_count_stable (fun s _ => s) "fr".data [] "Hi\\nYo".data (by decide)

/-- C1: executing the module top to bottom stops at the unconditional
sys.exit(1) on line 30: the run ends with exit status 1, the environment at
that point binds TRANSLATION_CACHE_FILE and the imports but not TAG_PATTERN
(nor anything after it), and no cache load, file parse, translation or file
write effect has been performed. -/
theorem module_init_exits_one :
    runModule = Except.error (1,
      ⟨["warnings".data, "os".data, "re".data, "sys".data, "json".data,
        "asyncio".data, "argparse".data, "requests".data, "glob".data,
        "rmtree".data, "defaultdict".data, "signal".data, "tqdm".data,
        "colorama".data, "translate".data, "TRANSLATION_CACHE_FILE".data],
       []⟩) ∧
    ("TAG_PATTERN".data ∈
      ["warnings".data, "os".data, "re".data, "sys".data, "json".data,
        "asyncio".data, "argparse".data, "requests".data, "glob".data,
        "rmtree".data, "defaultdict".data, "signal".data, "tqdm".data,
        "colorama".data, "translate".data,
        "TRANSLATION_CACHE_FILE".data]) = False := by
  constructor
  · rfl
  · simp only [eq_iff_iff, iff_false]
    decide

/-- C8: parsing the four-line sample file produces exactly one block (at
line 0) holding exactly one dialogue line whose original content is
Hello world, read at line 2, with target line 3 (the index of the new
line). -/
theorem parse_sample_file :
    parseFile ["translate french start_label".data,
      "# \"Hello world\"".data,
      "old \"Hello world\"".data,
      "new \"\"".data]
      = some ⟨[⟨0, [⟨2, 3, "Hello world".data⟩]⟩]⟩ := by
  decide

/-- C2 fails on the code: a target line with no leading keyword token, such
as an indented bare quoted line, is rewritten with the literal text None in
keyword position, because group 2 of the writeback regex is absent and
Python str.format renders None.  The rewritten line does not preserve the
keyword-free shape. -/
theorem rewrite_no_keyword_writes_None :
    rewriteLine "    \"Hello world\"".data "Bonjour".data
      = "    None \"Bonjour\"\n".data := by
  decide

/-- C3 fails on the code: the compiled writeback pattern is
(\s*)(\w+)?\s*() — the third group is empty because r"...("")" concatenates
two string literals — so a target line like foobar that has no quoted
string still matches, no failure is raised, and a corrupted line is
written.  matchQuoted is the expected-shape test taken from the parse-side
regex (\s*)(\w+)?\s*"(.*)". -/
theorem rewrite_mismatch_no_failure :
    matchQuoted "foobar".data = none ∧
    writeback (fun _ => "X".data) ["foobar".data] [⟨0, 0, []⟩]
      = some ["foobar \"X\"\n".data] := by
  constructor
  · decide
  · decide

/-- C9 fails on the code as stated: in a file where the comment line
# nvl clear is immediately followed by a quoted line, the parser produces
NO dialogue line at all (the commented-original branch explicitly excludes
a previous line starting with # nvl clear, and the old/new branch does not
apply), so no dialogue line with target = source + 1 exists. -/
theorem nvl_comment_produces_no_item :
    parseFile ["translate french start_label".data,
      "# nvl clear".data,
      "    \"Hello world\"".data]
      = some ⟨[⟨0, []⟩]⟩ ∧
    (TFile.mk [⟨0, []⟩]).blocks.all (fun b => b.items.isEmpty) = true := by
  constructor
  · decide
  · decide

/-- C7 fails on the code as stated: the segment count is not invariant for
every translation result.  With original content Hi (one unit) and a
backend whose translation contains the literal two-character sequence \n,
re-splitting the joined translated content yields two segments. -/
theorem segment_count_cex :
    (sanitize "Hi".data).length = 1 ∧
    (pySplit DELIM (get_translated_content
      (strings_translate (fun _ _ => "a\\nb".data) "fr".data []
        (sanitize "Hi".data)).translations)).length = 2 := by
  constructor
  · decide
  · decide

/-- C5 fails on the code as stated.  First: a cache that holds the pair
(Hi, fr) with an empty translated string is a present entry, yet
estimate_price reports a miss (flag 0, and a non-zero cost), because the
empty string is falsy in pull_from_cache.  Second: a tree whose single
unit is the whitespace string consisting of one space, after being
translated once, still re-estimates with zero cache hits (and cost
len * PPC, not 0), because whitespace units never enter the cache. -/
theorem estimate_price_cex :
    (List.lookup "fr".data
      ((List.lookup "Hi".data
        [("Hi".data, [("fr".data, ([] : Str))])]).getD [])).isSome = true ∧
    (estimate_price [("Hi".data, [("fr".data, ([] : Str))])]
      "Hi".data "fr".data).2 = 0 ∧
    unitCount ⟨[⟨0, [⟨2, 3, " ".data⟩]⟩]⟩ = 1 ∧
    (file_estimate
      (file_translate (fun _ _ => "X".data) "fr".data []
        ⟨[⟨0, [⟨2, 3, " ".data⟩]⟩]⟩).1
      "fr".data ⟨[⟨0, [⟨2, 3, " ".data⟩]⟩]⟩).2 = 0 := by
  refine ⟨by decide, by decide, by decide, by decide⟩

/- A fresh cache-miss write makes the key retrievable, provided the backend
   result is non-empty (an empty string would be falsy on the next read). -/
theorem pull_after_miss_write (cache : Cache) (content lang t : Str)
    (ht : t.isEmpty = false) :
    pull_from_cache ((content, [(lang, t)]) :: cache) content lang = some t := by
  simp [pull_from_cache, List.lookup, ht]

/-- C6 (as stated) is false: the content " " is a non-empty string, yet two
successive translate calls against a cold cache perform zero backend calls in
total (whitespace-only content short-circuits), not exactly one. -/
theorem translate_twice_cex :
    (ts_translate (fun _ _ => "X".data) [] " ".data "fr".data).calls = 0 ∧
    (ts_translate (fun _ _ => "X".data)
      (ts_translate (fun _ _ => "X".data) [] " ".data "fr".data).cache
      " ".data "fr".data).calls = 0 := by
  decide

/-- C6 amended: for every content string that contains a non-whitespace
character and a backend whose translation of it is non-empty, calling
translate twice with the same (content, language) from a cold cache performs
exactly one backend call (the first), the second call is satisfied from the
cache, and both calls produce identical translated text. -/
theorem translate_twice (backend : Str → Str → Str) (content lang : Str)
    (h1 : (pyStrip content).isEmpty = false)
    (h2 : (backend content lang).isEmpty = false) :
    (ts_translate backend [] content lang).calls = 1 ∧
    (ts_translate backend (ts_translate backend [] content lang).cache
      content lang).calls = 0 ∧
    (ts_translate backend (ts_translate backend [] content lang).cache
      content lang).translation
      = (ts_translate backend [] content lang).translation := by
  have hcold : pull_from_cache [] content lang = none := by
    simp [pull_from_cache, List.lookup]
  have hfirst : ts_translate backend [] content lang
      = ⟨backend content lang,
         (content, [(lang, backend content lang)]) :: [], 1⟩ := by
    simp [ts_translate, h1, hcold]
  have hpull := pull_after_miss_write [] content lang (backend content lang) h2
  refine ⟨by rw [hfirst], ?_, ?_⟩ <;>
    rw [hfirst] <;> simp [ts_translate, h1, hpull]

/-- Witness for C6 amended at content "Hi", backend constantly "X". -/
theorem translate_twice_witness :
    (ts_translate (fun _ _ => "X".data) [] "Hi".data "fr".data).calls = 1 ∧
    (ts_translate (fun _ _ => "X".data)
      (ts_translate (fun _ _ => "X".data) [] "Hi".data "fr".data).cache
      "Hi".data "fr".data).calls = 0 ∧
    (ts_translate (fun _ _ => "X".data)
      (ts_translate (fun _ _ => "X".data) [] "Hi".data "fr".data).cache
      "Hi".data "fr".data).translation
      = (ts_translate (fun _ _ => "X".data) [] "Hi".data "fr".data).translation :=
  translate_twice (fun _ _ => "X".data) "Hi".data "fr".data
    (by decide) (by decide)

/- Translating any string preserves retrievability of any key already
   retrievable from the cache, provided the backend never returns an empty
   string (a miss rebinds the translated key wholesale). -/
theorem pull_pres_translate (backend : Str → Str → Str) (lang : Str)
    (c : Cache) (x y : Str)
    (hb : ∀ s, (backend s lang).isEmpty = false)
    (hx : (pull_from_cache c x lang).isSome = true) :
    (pull_from_cache (ts_translate backend c y lang).cache x lang).isSome
      = true := by
  unfold ts_translate
  by_cases hws : (pyStrip y).isEmpty = true
  · simp only [hws, if_pos rfl]
    exact hx
  · rw [if_neg (by simp [hws])]
    cases hpull : pull_from_cache c y lang with
    | some t => exact hx
    | none =>
      show (pull_from_cache ((y, [(lang, backend y lang)]) :: c) x lang).isSome
        = true
      by_cases hxy : x = y
      · subst hxy
        rw [pull_after_miss_write c x lang (backend x lang) (hb x)]
        rfl
      · unfold pull_from_cache
        rw [List.lookup_cons]
        have : (x == y) = false := beq_false_of_ne hxy
        rw [this]
        exact hx

/- Translating a string with non-whitespace content makes its key
   retrievable afterwards. -/
theorem pull_self_translate (backend : Str → Str → Str) (lang : Str)
    (c : Cache) (u : Str)
    (hu : (pyStrip u).isEmpty = false)
    (hb : ∀ s, (backend s lang).isEmpty = false) :
    (pull_from_cache (ts_translate backend c u lang).cache u lang).isSome
      = true := by
  unfold ts_translate
  rw [if_neg (by simp [hu])]
  cases hpull : pull_from_cache c u lang with
  | some t => rw [hpull]; rfl
  | none =>
    show (pull_from_cache ((u, [(lang, backend u lang)]) :: c) u lang).isSome
      = true
    rw [pull_after_miss_write c u lang (backend u lang) (hb u)]
    rfl

theorem strings_translate_pres (backend : Str → Str → Str) (lang : Str)
    (us : List Str) (hb : ∀ s, (backend s lang).isEmpty = false) :
    ∀ (c : Cache) (x : Str), (pull_from_cache c x lang).isSome = true →
      (pull_from_cache (strings_translate backend lang c us).cache x
        lang).isSome = true := by
  induction us with
  | nil => intro c x hx; exact hx
  | cons u rest ih =>
    intro c x hx
    show (pull_from_cache (strings_translate backend lang
      (ts_translate backend c u lang).cache rest).cache x lang).isSome = true
    exact ih _ x (pull_pres_translate backend lang c x u hb hx)

theorem strings_translate_good (backend : Str → Str → Str) (lang : Str)
    (us : List Str) (hb : ∀ s, (backend s lang).isEmpty = false)
    (hu : ∀ u ∈ us, (pyStrip u).isEmpty = false) :
    ∀ (c : Cache) (u : Str), u ∈ us →
      (pull_from_cache (strings_translate backend lang c us).cache u
        lang).isSome = true := by
  induction us with
  | nil => intro c u hm; cases hm
  | cons v rest ih =>
    intro c u hm
    show (pull_from_cache (strings_translate backend lang
      (ts_translate backend c v lang).cache rest).cache u lang).isSome = true
    rcases List.mem_cons.mp hm with rfl | hmr
    · exact strings_translate_pres backend lang rest hb _ u
        (pull_self_translate backend lang c u (hu u (by simp)) hb)
    · exact ih (fun w hw => hu w (List.mem_cons_of_mem v hw)) _ u hmr

theorem items_translate_pres (backend : Str → Str → Str) (lang : Str)
    (items : List TItem) (hb : ∀ s, (backend s lang).isEmpty = false) :
    ∀ (c : Cache) (x : Str), (pull_from_cache c x lang).isSome = true →
      (pull_from_cache (items_translate backend lang c items).1 x
        lang).isSome = true := by
  induction items with
  | nil => intro c x hx; exact hx
  | cons it rest ih =>
    intro c x hx
    show (pull_from_cache (items_translate backend lang
      (strings_translate backend lang c (unitsOfItem it)).cache rest).1 x
      lang).isSome = true
    exact ih _ x (strings_translate_pres backend lang (unitsOfItem it) hb c x hx)

theorem items_translate_good (backend : Str → Str → Str) (lang : Str)
    (items : List TItem) (hb : ∀ s, (backend s lang).isEmpty = false)
    (hu : ∀ it ∈ items, ∀ u ∈ unitsOfItem it, (pyStrip u).isEmpty = false) :
    ∀ (c : Cache), ∀ it ∈ items, ∀ u ∈ unitsOfItem it,
      (pull_from_cache (items_translate backend lang c items).1 u
        lang).isSome = true := by
  induction items with
  | nil => intro c it hm; cases hm
  | cons jt rest ih =>
    intro c it hm u hum
    show (pull_from_cache (items_translate backend lang
      (strings_translate backend lang c (unitsOfItem jt)).cache rest).1 u
      lang).isSome = true
    rcases List.mem_cons.mp hm with rfl | hmr
    · exact items_translate_pres backend lang rest hb _ u
        (strings_translate_good backend lang (unitsOfItem it) hb
          (hu it (by simp)) c u hum)
    · exact ih (fun w hw => hu w (List.mem_cons_of_mem jt hw)) _ it hmr u hum

theorem blocks_translate_pres (backend : Str → Str → Str) (lang : Str)
    (blocks : List TBlock) (hb : ∀ s, (backend s lang).isEmpty = false) :
    ∀ (c : Cache) (x : Str), (pull_from_cache c x lang).isSome = true →
      (pull_from_cache (blocks_translate backend lang c blocks).1 x
        lang).isSome = true := by
  induction blocks with
  | nil => intro c x hx; exact hx
  | cons b0 rest ih =>
    intro c x hx
    show (pull_from_cache (blocks_translate backend lang
      (items_translate backend lang c b0.items).1 rest).1 x lang).isSome = true
    exact ih _ x (items_translate_pres backend lang b0.items hb c x hx)

theorem blocks_translate_good (backend : Str → Str → Str) (lang : Str)
    (blocks : List TBlock) (hb : ∀ s, (backend s lang).isEmpty = false)
    (hu : ∀ b ∈ blocks, ∀ it ∈ b.items, ∀ u ∈ unitsOfItem it,
      (pyStrip u).isEmpty = false) :
    ∀ (c : Cache), ∀ b ∈ blocks, ∀ it ∈ b.items, ∀ u ∈ unitsOfItem it,
      (pull_from_cache (blocks_translate backend lang c blocks).1 u
        lang).isSome = true := by
  induction blocks with
  | nil => intro c b hm; cases hm
  | cons b0 rest ih =>
    intro c b hm it hit u hum
    show (pull_from_cache (blocks_translate backend lang
      (items_translate backend lang c b0.items).1 rest).1 u lang).isSome = true
    rcases List.mem_cons.mp hm with rfl | hmr
    · exact blocks_translate_pres backend lang rest hb _ u
        (items_translate_good backend lang b.items hb (hu b (by simp)) c it
          hit u hum)
    · exact ih (fun w hw => hu w (List.mem_cons_of_mem b0 hw)) _ b hmr
        it hit u hum

theorem estimate_of_hit (c : Cache) (lang u : Str)
    (h : (pull_from_cache c u lang).isSome = true) :
    estimate_price c u lang = (0, 1) := by
  unfold estimate_price
  cases hp : pull_from_cache c u lang with
  | some t => rfl
  | none => rw [hp] at h; cases h

theorem strings_estimate_hits (c : Cache) (lang : Str) (us : List Str)
    (h : ∀ u ∈ us, (pull_from_cache c u lang).isSome = true) :
    strings_estimate c lang us = (0, us.length) := by
  induction us with
  | nil => rfl
  | cons u rest ih =>
    show ((estimate_price c u lang).1 + (strings_estimate c lang rest).1,
      (estimate_price c u lang).2 + (strings_estimate c lang rest).2)
      = (0, rest.length + 1)
    rw [estimate_of_hit c lang u (h u (by simp)),
      ih (fun w hw => h w (List.mem_cons_of_mem u hw))]
    simp [Nat.add_comm]

theorem items_estimate_hits (c : Cache) (lang : Str) (items : List TItem)
    (h : ∀ it ∈ items, ∀ u ∈ unitsOfItem it,
      (pull_from_cache c u lang).isSome = true) :
    items_estimate c lang items
      = (0, (items.map (fun it => (unitsOfItem it).length)).sum) := by
  induction items with
  | nil => rfl
  | cons it rest ih =>
    show ((strings_estimate c lang (unitsOfItem it)).1
        + (items_estimate c lang rest).1,
      (strings_estimate c lang (unitsOfItem it)).2
        + (items_estimate c lang rest).2) = _
    rw [strings_estimate_hits c lang (unitsOfItem it) (h it (by simp)),
      ih (fun w hw => h w (List.mem_cons_of_mem it hw))]
    simp

theorem blocks_estimate_hits (c : Cache) (lang : Str) (blocks : List TBlock)
    (h : ∀ b ∈ blocks, ∀ it ∈ b.items, ∀ u ∈ unitsOfItem it,
      (pull_from_cache c u lang).isSome = true) :
    blocks_estimate c lang blocks
      = (0, (blocks.map (fun b =>
          (b.items.map (fun it => (unitsOfItem it).length)).sum)).sum) := by
  induction blocks with
  | nil => rfl
  | cons b rest ih =>
    show ((items_estimate c lang b.items).1
        + (blocks_estimate c lang rest).1,
      (items_estimate c lang b.items).2
        + (blocks_estimate c lang rest).2) = _
    rw [items_estimate_hits c lang b.items (h b (by simp)),
      ih (fun w hw => h w (List.mem_cons_of_mem b hw))]
    simp

/-- C5 amended: estimatePrice returns (0, 1) exactly when pull_from_cache
finds a cached non-empty translation for (content, targetLanguage) (a
present pair whose stored string is empty, or whose per-content map is
empty, counts as a miss), and (length(content) x PPC, 0) otherwise, with
PPC = 20 / 1000000 dollars per character; and for any tree of units all of
whose contents contain a non-whitespace character, translated once with a
backend that returns non-empty text, re-running the estimate on the
resulting cache yields total cost 0 with every unit counted as a cache
hit. -/
theorem estimate_price_correct (backend : Str → Str → Str) (lang : Str)
    (cache : Cache) (f : TFile)
    (hb : ∀ s, (backend s lang).isEmpty = false)
    (hu : ∀ b ∈ f.blocks, ∀ it ∈ b.items, ∀ u ∈ unitsOfItem it,
      (pyStrip u).isEmpty = false) :
    (∀ (c : Cache) (content : Str),
      estimate_price c content lang
        = if (pull_from_cache c content lang).isSome then (0, 1)
          else ((content.length : ℚ) * PPC, 0)) ∧
    file_estimate (file_translate backend lang cache f).1 lang f
      = (0, unitCount f) := by
  constructor
  · intro c content
    unfold estimate_price
    cases hp : pull_from_cache c content lang with
    | some t => rw [if_pos (by rfl)]
    | none => rw [if_neg (by simp)]
  · show blocks_estimate (blocks_translate backend lang cache f.blocks).1
      lang f.blocks = (0, unitCount f)
    rw [blocks_estimate_hits _ lang f.blocks
      (fun b hbm it hit u hum =>
        blocks_translate_good backend lang f.blocks hb hu cache b hbm it
          hit u hum)]
    rfl

/-- Witness for C5 amended: one file, one block, one item with content Hi,
backend constantly X, cold cache. -/
theorem estimate_price_correct_witness :
    (∀ (c : Cache) (content : Str),
      estimate_price c content "fr".data
        = if (pull_from_cache c content "fr".data).isSome then (0, 1)
          else ((content.length : ℚ) * PPC, 0)) ∧
    file_estimate
      (file_translate (fun _ _ => "X".data) "fr".data []
        ⟨[⟨0, [⟨2, 3, "Hi".data⟩]⟩]⟩).1
      "fr".data ⟨[⟨0, [⟨2, 3, "Hi".data⟩]⟩]⟩
      = (0, unitCount ⟨[⟨0, [⟨2, 3, "Hi".data⟩]⟩]⟩) :=
  estimate_price_correct (fun _ _ => "X".data) "fr".data []
    ⟨[⟨0, [⟨2, 3, "Hi".data⟩]⟩]⟩ (fun _ => rfl) (by decide)

theorem head_of_isPrefixOf (c : Char) (p s : Str)
    (h : (c :: p).isPrefixOf s = true) : ∃ r, s = c :: r := by
  cases s with
  | nil => cases h
  | cons d r =>
    have hp : c :: p <+: d :: r := List.isPrefixOf_iff_prefix.mp h
    rcases List.cons_prefix_cons.mp hp with ⟨hc, _⟩
    exact ⟨r, by rw [hc]⟩

theorem pyStrip_cons_not_space (c : Char) (l : Str)
    (hc : isPySpace c = false) : ∃ m, pyStrip (c :: l) = c :: m := by
  unfold pyStrip
  rw [List.dropWhile_cons, hc]
  simp only [Bool.false_eq_true, if_false]
  rw [List.reverse_cons, List.dropWhile_append]
  by_cases he : (List.dropWhile isPySpace l.reverse).isEmpty = true
  · rw [if_pos he]
    refine ⟨[], ?_⟩
    rw [List.dropWhile_cons, hc]
    simp
  · rw [if_neg he]
    exact ⟨(List.dropWhile isPySpace l.reverse).reverse,
      by rw [List.reverse_append]; simp⟩

/- A line whose stripped form starts with nvl clear is not a translate
   block header (the raw line would have to start with the letter t). -/
theorem nvl_line_not_header (line : Str)
    (h : "nvl clear".data.isPrefixOf (pyStrip line) = true) :
    matchBlockHeader line = false := by
  unfold matchBlockHeader
  by_cases ht : "translate ".data.isPrefixOf line = true
  · exfalso
    have ht2 : ('t' :: "ranslate ".data).isPrefixOf line = true := ht
    rcases head_of_isPrefixOf 't' _ line ht2 with ⟨r, rfl⟩
    rcases pyStrip_cons_not_space 't' r (by decide) with ⟨m, hm⟩
    have h2 : ('n' :: "vl clear".data).isPrefixOf (pyStrip ('t' :: r)) = true := h
    rw [hm] at h2
    rcases head_of_isPrefixOf 'n' _ _ h2 with ⟨r2, hr2⟩
    injection hr2 with h1 _
    exact absurd h1 (by decide)
  · rw [if_neg ht]

/- Two prefixes of the same string agree on their head characters. -/
theorem not_isPrefixOf_of_head_ne (c d : Char) (p q s : Str) (hcd : c ≠ d)
    (h : (c :: p).isPrefixOf s = true) : (d :: q).isPrefixOf s = false := by
  rcases head_of_isPrefixOf c p s h with ⟨r, rfl⟩
  by_contra hb
  simp only [Bool.not_eq_false] at hb
  rcases head_of_isPrefixOf d q _ hb with ⟨r2, hr2⟩
  injection hr2 with h1 _
  exact hcd h1

theorem prefix_nonempty (c : Char) (p s : Str)
    (h : (c :: p).isPrefixOf s = true) : s.isEmpty = false := by
  rcases head_of_isPrefixOf c p s h with ⟨r, rfl⟩
  rfl


theorem isPrefixOf_cons_head_ne (d c : Char) (q m : Str) (h : d ≠ c) :
    (d :: q).isPrefixOf (c :: m) = false := by
  simp [List.isPrefixOf, beq_false_of_ne h]

/- A translate block-header line cannot strip to a line starting with old
   (its raw form starts with the letter t). -/
theorem old_prefix_false_of_header (line : Str)
    (h : matchBlockHeader line = true) :
    "old".data.isPrefixOf (pyStrip line) = false := by
  unfold matchBlockHeader at h
  by_cases ht : "translate ".data.isPrefixOf line = true
  · have ht2 : ('t' :: "ranslate ".data).isPrefixOf line = true := ht
    rcases head_of_isPrefixOf 't' _ line ht2 with ⟨r, rfl⟩
    rcases pyStrip_cons_not_space 't' r (by decide) with ⟨m, hm⟩
    rw [hm]
    exact isPrefixOf_cons_head_ne 'o' 't' _ _ (by decide)
  · rw [if_neg ht] at h
    cases h

theorem getD_heap_append (heap : List TItem) (x : TItem) (k : Nat)
    (hk : k < heap.length) :
    (heap ++ [x]).getD k ⟨0, 0, []⟩ = heap.getD k ⟨0, 0, []⟩ := by
  simp only [List.getD_eq_getElem?_getD]
  rw [List.getElem?_append_left hk]

theorem getD_heap_append_self (heap : List TItem) (x : TItem) :
    (heap ++ [x]).getD heap.length ⟨0, 0, []⟩ = x := by
  simp only [List.getD_eq_getElem?_getD]
  rw [List.getElem?_append_right (le_refl _)]
  simp

theorem getD_heap_set_ne (heap : List TItem) (t k : Nat) (x : TItem)
    (h : t ≠ k) :
    (heap.set t x).getD k ⟨0, 0, []⟩ = heap.getD k ⟨0, 0, []⟩ := by
  simp only [List.getD_eq_getElem?_getD]
  rw [List.getElem?_set_ne h]

theorem idInBlocks_flush (k : Nat) (st st' : PState)
    (hf : st'.fileBlocks = flushBlocks st)
    (h : idInBlocks k st) : idInBlocks k st' := by
  rcases h with ⟨pb, hpb, hk⟩ | ⟨pb, hpb, hk⟩
  · exact Or.inl ⟨pb, by rw [hf]; exact List.mem_append_left _ hpb, hk⟩
  · refine Or.inl ⟨pb, ?_, hk⟩
    rw [hf]
    unfold flushBlocks
    rw [hpb]
    exact List.mem_append_right _ (by simp)

theorem idInBlocks_keep (k : Nat) (st st' : PState)
    (hf : st'.fileBlocks = st.fileBlocks) (ht : st'.tblock = st.tblock)
    (h : idInBlocks k st) : idInBlocks k st' := by
  rcases h with ⟨pb, hpb, hk⟩ | ⟨pb, hpb, hk⟩
  · exact Or.inl ⟨pb, by rw [hf]; exact hpb, hk⟩
  · exact Or.inr ⟨pb, by rw [ht]; exact hpb, hk⟩

theorem idInBlocks_extend (k : Nat) (st st' : PState) (b : PBlock) (x : Nat)
    (hb : st.tblock = some b)
    (hf : st'.fileBlocks = st.fileBlocks)
    (ht : st'.tblock = some ⟨b.block_line, b.item_ids ++ [x]⟩)
    (h : idInBlocks k st) : idInBlocks k st' := by
  rcases h with ⟨pb, hpb, hk⟩ | ⟨pb, hpb, hk⟩
  · exact Or.inl ⟨pb, by rw [hf]; exact hpb, hk⟩
  · rw [hb] at hpb
    injection hpb with hpb
    subst hpb
    exact Or.inr ⟨_, ht, List.mem_append_left _ hk⟩

theorem pstep_pres2 (lines : List Str) (i j : Nat) (st st' : PState)
    (hstep : pstep lines st j = some st')
    (hinv : invAt lines i j st)
    (hpair1 : b3c lines (j + 1) = true →
      "#".data.isPrefixOf (pyStrip (lines.getD (j - 1) [])) = true)
    (hj : 0 < j) :
    invAt lines i (j + 1) st' := by
  obtain ⟨k, ⟨hklt, hkin, hsrc, htgt⟩, hcond⟩ := hinv
  have hprevj1 : prevLine lines (j + 1) = lines.getD j [] := by
    unfold prevLine
    rw [if_neg (by omega)]
    have he : j + 1 - 1 = j := by omega
    rw [he]
  have hprevj : prevLine lines j = lines.getD (j - 1) [] := by
    unfold prevLine
    rw [if_neg (by omega)]
  simp only [pstep] at hstep
  split at hstep
  · rename_i hc1
    injection hstep with hstep
    subst hstep
    refine ⟨k, ⟨hklt, idInBlocks_flush k st _ rfl hkin, hsrc, htgt⟩, ?_⟩
    intro _
    have hmb : matchBlockHeader (lines.getD j []) = true := by
      simp only [Bool.and_eq_true] at hc1
      exact hc1.2
    have hof := old_prefix_false_of_header _ hmb
    unfold b3c
    rw [hprevj1, hof]
    rfl
  · split at hstep
    · split at hstep
      · rename_i g1 g2 content hq
        injection hstep with hstep
        subst hstep
        refine ⟨k, ⟨?_, idInBlocks_keep k st _ rfl rfl hkin, ?_, ?_⟩, ?_⟩
        · show k < (st.heap ++ _).length
          simp only [List.length_append]
          omega
        · show ((st.heap ++ _).getD k ⟨0, 0, []⟩).source_line = i
          rw [getD_heap_append st.heap _ k hklt]
          exact hsrc
        · show ((st.heap ++ _).getD k ⟨0, 0, []⟩).target_line = i + 1
          rw [getD_heap_append st.heap _ k hklt]
          exact htgt
        · intro htk
          have hlen : st.heap.length = k := by
            have : some st.heap.length = some k := htk
            injection this
          omega
      · cases hstep
    · split at hstep
      · split at hstep
        · rename_i tid b htitem htblock
          have hb3t : b3c lines j = true := by assumption
          have htk : tid ≠ k := by
            intro he
            subst he
            have hb3f : b3c lines j = false := hcond (by rw [htitem])
            rw [hb3f] at hb3t
            cases hb3t
          injection hstep with hstep
          subst hstep
          refine ⟨k, ⟨?_, idInBlocks_extend k st _ b tid htblock rfl rfl hkin,
            ?_, ?_⟩, ?_⟩
          · show k < (st.heap.set tid _).length
            simp only [List.length_set]
            exact hklt
          · show ((st.heap.set tid _).getD k ⟨0, 0, []⟩).source_line = i
            rw [getD_heap_set_ne st.heap tid k _ htk]
            exact hsrc
          · show ((st.heap.set tid _).getD k ⟨0, 0, []⟩).target_line = i + 1
            rw [getD_heap_set_ne st.heap tid k _ htk]
            exact htgt
          · intro htk2
            have : some tid = some k := by rw [← htitem]; exact htk2
            injection this with he
            exact absurd he htk
        · cases hstep
      · split at hstep
        · split at hstep
          · split at hstep
            · rename_i b htblock
              injection hstep with hstep
              subst hstep
              refine ⟨k, ⟨?_,
                idInBlocks_extend k st _ b st.heap.length htblock rfl rfl hkin,
                ?_, ?_⟩, ?_⟩
              · show k < (st.heap ++ _).length
                simp only [List.length_append]
                omega
              · show ((st.heap ++ _).getD k ⟨0, 0, []⟩).source_line = i
                rw [getD_heap_append st.heap _ k hklt]
                exact hsrc
              · show ((st.heap ++ _).getD k ⟨0, 0, []⟩).target_line = i + 1
                rw [getD_heap_append st.heap _ k hklt]
                exact htgt
              · intro htk
                have hlen : st.heap.length = k := by
                  have : some st.heap.length = some k := htk
                  injection this
                omega
            · cases hstep
          · cases hstep
        · rename_i hn1 hn2 hn3 hn4
          injection hstep with hstep
          subst hstep
          refine ⟨k, ⟨hklt, hkin, hsrc, htgt⟩, ?_⟩
          intro htk
          cases hb : b3c lines (j + 1) with
          | false => rfl
          | true =>
            exfalso
            have hpp := hpair1 hb
            have hb2 := hb
            unfold b3c at hb2
            rw [hprevj1] at hb2
            simp only [Bool.and_eq_true] at hb2
            obtain ⟨hold, _⟩ := hb2
            apply hn2
            rw [hprevj]
            have hpp2 : ['#'].isPrefixOf (pyStrip (lines.getD (j - 1) []))
              = true := hpp
            have hold2 : ['o', 'l', 'd'].isPrefixOf
              (pyStrip (lines.getD j [])) = true := hold
            rw [hpp2, hold2]
            rfl

theorem pstep_estab2 (lines : List Str) (i : Nat) (st st' : PState)
    (hi : 0 < i)
    (hprev : "#".data.isPrefixOf (pyStrip (lines.getD (i - 1) [])) = true)
    (hprevn : "# nvl clear".data.isPrefixOf (pyStrip (lines.getD (i - 1) []))
      = false)
    (hline : "nvl clear".data.isPrefixOf (pyStrip (lines.getD i [])) = true)
    (hstep : pstep lines st i = some st') : invAt lines i (i + 1) st' := by
  have hprevline : prevLine lines i = lines.getD (i - 1) [] := by
    unfold prevLine
    rw [if_neg (Nat.pos_iff_ne_zero.mp hi)]
  have hprevi1 : prevLine lines (i + 1) = lines.getD i [] := by
    unfold prevLine
    rw [if_neg (by omega)]
    have he : i + 1 - 1 = i := by omega
    rw [he]
  have hprev2 : ['#'].isPrefixOf (pyStrip (lines.getD (i - 1) [])) = true :=
    hprev
  have hprevn2 : ['#', ' ', 'n', 'v', 'l', ' ', 'c', 'l', 'e', 'a',
      'r'].isPrefixOf (pyStrip (lines.getD (i - 1) [])) = false := hprevn
  have hline2 : ('n' :: "vl clear".data).isPrefixOf
      (pyStrip (lines.getD i [])) = true := hline
  have hnh : matchBlockHeader (lines.getD i []) = false :=
    nvl_line_not_header _ hline
  have hno : ['o', 'l', 'd'].isPrefixOf (pyStrip (lines.getD i [])) = false :=
    not_isPrefixOf_of_head_ne 'n' 'o' _ _ _ (by decide) hline2
  have holdprev : ['o', 'l', 'd'].isPrefixOf
      (pyStrip (lines.getD (i - 1) [])) = false :=
    not_isPrefixOf_of_head_ne '#' 'o' _ _ _ (by decide) hprev2
  have hemp : (pyStrip (lines.getD i [])).isEmpty = false :=
    prefix_nonempty 'n' _ _ hline2
  simp only [pstep] at hstep
  rw [hprevline] at hstep
  rw [hnh, hprev2, hno, holdprev, hprevn2, hemp] at hstep
  simp only [Bool.and_false, Bool.false_and, Bool.true_and, Bool.not_false,
    Bool.and_true, Bool.false_eq_true, if_false, if_true] at hstep
  cases hq : matchQuoted ((pyStrip (lines.getD (i - 1) [])).drop 2) with
  | none => rw [hq] at hstep; exact absurd hstep (by simp)
  | some g =>
    obtain ⟨g1, g2, content⟩ := g
    rw [hq] at hstep
    cases htb : st.tblock with
    | none => rw [htb] at hstep; exact absurd hstep (by simp)
    | some b =>
      rw [htb] at hstep
      injection hstep with hstep
      subst hstep
      refine ⟨st.heap.length, ⟨?_, ?_, ?_, ?_⟩, ?_⟩
      · show st.heap.length < (st.heap ++ _).length
        simp only [List.length_append, List.length_cons, List.length_nil]
        omega
      · exact Or.inr ⟨⟨b.block_line, b.item_ids ++ [st.heap.length]⟩, rfl,
          List.mem_append_right _ (by simp)⟩
      · show ((st.heap ++ [nvlItem i (lines.getD i []) content]).getD
          st.heap.length ⟨0, 0, []⟩).source_line = i
        rw [getD_heap_append_self]
        unfold nvlItem
        rw [if_pos hline]
      · show ((st.heap ++ [nvlItem i (lines.getD i []) content]).getD
          st.heap.length ⟨0, 0, []⟩).target_line = i + 1
        rw [getD_heap_append_self]
        unfold nvlItem
        rw [if_pos hline]
      · intro _
        unfold b3c
        rw [hprevi1, hno]
        rfl

theorem foldlM_pstep_inv (lines : List Str) (i : Nat)
    (hpair : ∀ m : Nat, i < m → b3c lines m = true →
      "#".data.isPrefixOf (pyStrip (lines.getD (m - 2) [])) = true) :
    ∀ (kk j : Nat) (st st' : PState), i < j →
      List.foldlM (pstep lines) st (List.range' j kk) = some st' →
      invAt lines i j st → invAt lines i (j + kk) st' := by
  intro kk
  induction kk with
  | zero =>
    intro j st st' _ h hinv
    simp only [List.range', List.foldlM_nil, Option.pure_def,
      Option.some.injEq] at h
    rw [← h]
    exact hinv
  | succ kk ih =>
    intro j st st' hij h hinv
    rw [List.range'_succ] at h
    simp only [List.foldlM_cons] at h
    cases hstep : pstep lines st j with
    | none => rw [hstep] at h; exact absurd h (by simp)
    | some st1 =>
      rw [hstep] at h
      simp only [Option.bind_eq_bind, Option.some_bind] at h
      have hpair1 : b3c lines (j + 1) = true →
          "#".data.isPrefixOf (pyStrip (lines.getD (j - 1) [])) = true := by
        intro hb
        have := hpair (j + 1) (by omega) hb
        have he : j + 1 - 2 = j - 1 := by omega
        rw [he] at this
        exact this
      have hinv1 : invAt lines i (j + 1) st1 :=
        pstep_pres2 lines i j st st1 hstep hinv hpair1 (by omega)
      have hres := ih (j + 1) st1 st' (by omega) h hinv1
      have he : j + 1 + kk = j + (kk + 1) := by omega
      rw [he] at hres
      exact hres

/-- C9 amended: the nvl-clear target shift applies when a comment line
that is not the # nvl clear marker is immediately followed by a line
starting with nvl clear (the parser excludes a previous # nvl clear line,
so the shape stated in the claim produces nothing); and because the
old/new branch retargets the shared pending TranslationItem in place, the
recorded line survives only if every later adjacent old/new line pair has
a comment line immediately before its old line (which rebinds the pending
reference first).  Under these conditions a successful parse contains a
dialogue line whose source line is i and whose target line is i + 1. -/
theorem nvl_clear_target_line (lines : List Str) (i : Nat) (f : TFile)
    (hi : 0 < i) (hn : i < lines.length)
    (hprev : "#".data.isPrefixOf (pyStrip (lines.getD (i - 1) [])) = true)
    (hprevn : "# nvl clear".data.isPrefixOf (pyStrip (lines.getD (i - 1) []))
      = false)
    (hline : "nvl clear".data.isPrefixOf (pyStrip (lines.getD i [])) = true)
    (hpair : ∀ m : Nat, i < m → b3c lines m = true →
      "#".data.isPrefixOf (pyStrip (lines.getD (m - 2) [])) = true)
    (hparse : parseFile lines = some f) :
    ∃ b ∈ f.blocks, ∃ it ∈ b.items,
      it.source_line = i ∧ it.target_line = i + 1 := by
  unfold parseFile at hparse
  cases hfold : (List.range lines.length).foldlM (pstep lines)
      ⟨none, none, none, [], []⟩ with
  | none => rw [hfold] at hparse; exact absurd hparse (by simp)
  | some st =>
    rw [hfold] at hparse
    injection hparse with hparse
    rw [List.range_eq_range'] at hfold
    have hsplit := List.range'_append_1 0 i (lines.length - i)
    rw [Nat.zero_add] at hsplit
    have he2 : lines.length - i + i = lines.length := by omega
    rw [he2] at hsplit
    rw [← hsplit, List.foldlM_append] at hfold
    cases h1 : List.foldlM (pstep lines) ⟨none, none, none, [], []⟩
        (List.range' 0 i) with
    | none => rw [h1] at hfold; exact absurd hfold (by simp)
    | some st1 =>
      rw [h1] at hfold
      simp only [Option.bind_eq_bind, Option.some_bind] at hfold
      have hlen : lines.length - i = lines.length - i - 1 + 1 := by omega
      rw [hlen, List.range'_succ] at hfold
      simp only [List.foldlM_cons] at hfold
      cases hstep : pstep lines st1 i with
      | none => rw [hstep] at hfold; exact absurd hfold (by simp)
      | some st2 =>
        rw [hstep] at hfold
        simp only [Option.bind_eq_bind, Option.some_bind] at hfold
        have hinv2 : invAt lines i (i + 1) st2 :=
          pstep_estab2 lines i st1 st2 hi hprev hprevn hline hstep
        have hinvF := foldlM_pstep_inv lines i hpair
          (lines.length - i - 1) (i + 1) st2 st (by omega) hfold hinv2
        obtain ⟨k, ⟨_, hkin, hsrc, htgt⟩, _⟩ := hinvF
        have hblk : ∃ pb ∈ flushBlocks st, k ∈ pb.item_ids := by
          rcases hkin with ⟨pb, hpb, hk⟩ | ⟨pb, hpb, hk⟩
          · exact ⟨pb, List.mem_append_left _ hpb, hk⟩
          · refine ⟨pb, ?_, hk⟩
            unfold flushBlocks
            rw [hpb]
            exact List.mem_append_right _ (by simp)
        obtain ⟨pb, hpbm, hkid⟩ := hblk
        refine ⟨resolveBlock st.heap pb, ?_,
          st.heap.getD k ⟨0, 0, []⟩, ?_, hsrc, htgt⟩
        · rw [← hparse]
          exact List.mem_map_of_mem (resolveBlock st.heap) hpbm
        · show _ ∈ (resolveBlock st.heap pb).items
          unfold resolveBlock
          exact List.mem_map_of_mem _ hkid

/-- Witness for C9 amended at a concrete four-line file: the comment
followed by a plain nvl clear line yields an item with source line 2 and
target line 3, and the file contains no later old/new pair. -/
theorem nvl_clear_target_line_witness :
    ∃ b ∈ (TFile.mk [⟨0, [⟨2, 3, "Hi".data⟩]⟩]).blocks, ∃ it ∈ b.items,
      it.source_line = 2 ∧ it.target_line = 2 + 1 :=
  nvl_clear_target_line
    ["translate french start_label".data, "# \"Hi\"".data,
      "nvl clear".data, "    \"Hi\"".data]
    2 ⟨[⟨0, [⟨2, 3, "Hi".data⟩]⟩]⟩
    (by decide) (by decide) (by decide) (by decide) (by decide)
    (by
      intro m hm hb
      exfalso
      by_cases h4 : m < 4
      · have hm3 : m = 3 := by omega
        subst hm3
        exact absurd hb (by decide)
      · have hg : (["translate french start_label".data, "# \"Hi\"".data,
            "nvl clear".data, "    \"Hi\"".data] : List Str).getD m [] = [] := by
          simp only [List.getD_eq_getElem?_getD]
          rw [List.getElem?_eq_none (by simp; omega)]
          rfl
        unfold b3c at hb
        rw [hg] at hb
        have hne : "new".data.isPrefixOf (pyStrip ([] : Str)) = false := by
          decide
        rw [hne, Bool.and_false] at hb
        cases hb)
    (by decide)

/- The in-place retargeting through the shared reference, as the program
   does it: when a bare old/new pair follows the nvl-clear shape with no
   comment before the old line, the already-recorded item is mutated to
   the later target line and its id is appended a second time, so no item
   with target = source + 1 survives. -/
theorem parse_alias_retarget :
    parseFile ["translate french lbl".data, "# \"Hello\"".data,
      "nvl clear".data, "old \"x\"".data, "new \"\"".data]
      = some ⟨[⟨0, [⟨2, 4, "Hello".data⟩, ⟨2, 4, "Hello".data⟩]⟩]⟩ := by
  decide
